import Mathlib

/-!
Verification development for the ClaimWise claims-reimbursement application.

The development shallowly embeds, in Lean 4:
  * the status enums CHECK-constrained by the SQL schema
    (backend/init-sql/01_create_tables.sql) and the status values the
    frontend writes (src/lib/api.ts, the claim-details page);
  * the claim store (create / transition) and the drift evaluator, which
    live in the backend service that is not part of this repository's
    files; those are modelled from the spec's words (each such definition
    says so in its doc comment);
  * the frontend helpers `analyzeMetricRuns`, `getStatusBadgeVariant` and
    `claimsApi.submitClaimsBatch`, translated from the TypeScript source.

Numbers are embedded as `ℚ` (the JavaScript side never relies on float
rounding beyond `toFixed(2)`, which is modelled exactly); a JavaScript
number that may be `NaN` is embedded as `Option ℚ` with `none` for `NaN`.
-/

/-! ## Status enums of the SQL schema (src/backend/init-sql/01_create_tables.sql) -/

/-- Allowed values of `proposedclaim.claim_status`:
`CHECK (claim_status IN ('Approved', 'Pending', 'Denied'))`. -/
def claimStatusAllowed : List String := ["Approved", "Pending", "Denied"]

/-- Allowed values of `claimhistory.old_status`:
`CHECK (old_status IN ('Approved', 'Pending', 'Denied', 'New'))`. -/
def oldStatusAllowed : List String := ["Approved", "Pending", "Denied", "New"]

/-- Allowed values of `claimhistory.new_status`:
`CHECK (new_status IN ('Approved', 'Pending', 'Denied'))`. -/
def newStatusAllowed : List String := ["Approved", "Pending", "Denied"]

/-- Allowed values of `hitlqueue.status`:
`CHECK (status IN ('Approved', 'Pending', 'Denied'))`. -/
def hitlStatusAllowed : List String := ["Approved", "Pending", "Denied"]

/-- The status string the claim-details page sends when the user withdraws a
claim: `claimsApiNew.updateClaimStatus(id, 'Withdrawn', 'User requested
withdrawal')` in `handleWithdraw`. -/
def withdrawRequestStatus : String := "Withdrawn"

/-- The `(old_status, new_status)` pairs the seed data inserts into
`claimhistory` (src/backend/init-sql/02_create_feedback_table.sql):
the intake row `New → Pending` and the decision row `Pending → Denied`. -/
def seedHistoryTransitions : List (String × String) :=
  [("New", "Pending"), ("Pending", "Denied")]

/-- The `claim_status` value the seed data inserts into `proposedclaim`. -/
def seedClaimStatus : String := "Denied"

/-! ## The claim lifecycle state machine (spec §4.1) -/

/-- States of the claim lifecycle. `Pending`, `Approved`, `Denied` are the
claim statuses; `new` is the pseudo-initial state used only as the
`old_status` of a claim's very first history row; `withdrawn` is the extra
product-level status the frontend's withdrawal path sends, which the minimal
schema does not admit. -/
inductive Status where
  | new
  | pending
  | approved
  | denied
  | withdrawn
deriving DecidableEq

/-- The SQL string for each state, as the schema and the frontend spell it. -/
def statusName : Status → String
  | Status.new => "New"
  | Status.pending => "Pending"
  | Status.approved => "Approved"
  | Status.denied => "Denied"
  | Status.withdrawn => "Withdrawn"

/-! ## Claim store (modelled from the spec) -/

/-- Modelled from the spec: the error taxonomy of §7 for the claim store
(the backend service implementing it is not among the repository's files;
only its HTTP client `src/lib/api.ts` and the SQL schema are). -/
inductive CSError where
  | validationError
  | notFoundError
  | invalidTransitionError
deriving DecidableEq

/-- Modelled from the spec: a claim row (§3), restricted to the fields the
state machine reads and writes. -/
structure Claim where
  claim_id : String
  customer_id : String
  claim_amount : ℚ
  approved_amount : ℚ
  claim_status : Status
deriving DecidableEq

/-- Modelled from the spec: a `ClaimHistory` row (§3). Timestamps are
modelled as the store's logical clock at append time, so they strictly
increase along the append-only log. -/
structure HistoryRow where
  claim_id : String
  old_status : Status
  new_status : Status
  changed_by : String
  role : String
  change_reason : Option String
  timestamp : ℕ
deriving DecidableEq

/-- Modelled from the spec: the claim store's state — the claim rows, the
append-only history log, and a logical clock that stamps history rows. -/
structure Store where
  claims : List Claim
  history : List HistoryRow
  clock : ℕ
deriving DecidableEq

/-- The store holding no claims and no history. -/
def emptyStore : Store := { claims := [], history := [], clock := 0 }

/-- The first claim row whose `claim_id` matches, as `get(claim_id)` reads it. -/
def findClaim (s : Store) (id : String) : Option Claim :=
  s.claims.find? (fun c => c.claim_id = id)

/-- The history rows of one claim, in log order (timestamps strictly
increase along the log, so this is also timestamp order). -/
def rowsFor (s : Store) (id : String) : List HistoryRow :=
  s.history.filter (fun h => h.claim_id = id)

/-- The claim row `create` writes: status `Pending`, approved_amount 0. -/
def newClaimRec (id customerId : String) (amount : ℚ) : Claim :=
  { claim_id := id, customer_id := customerId, claim_amount := amount,
    approved_amount := 0, claim_status := Status.pending }

/-- The `New → Pending` history row `create` appends. -/
def intakeRow (id actor role : String) (ts : ℕ) : HistoryRow :=
  { claim_id := id, old_status := Status.new, new_status := Status.pending,
    changed_by := actor, role := role, change_reason := none, timestamp := ts }

/-- The history row a successful `transition` appends: `old_status` is the
status before the call. -/
def transRow (c : Claim) (ns : Status) (actor role : String)
    (reason : Option String) (ts : ℕ) : HistoryRow :=
  { claim_id := c.claim_id, old_status := c.claim_status, new_status := ns,
    changed_by := actor, role := role, change_reason := reason,
    timestamp := ts }

/-- The in-place claim update a successful `transition` performs on the row
whose id matches. -/
def updateIfMatch (c : Claim) (ns : Status) (amt : ℚ) (x : Claim) : Claim :=
  if x.claim_id = c.claim_id then
    { x with claim_status := ns, approved_amount := amt }
  else x

/-- Modelled from the spec (§4.1 `create`): fails with `ValidationError` if
the claim_id already exists, the amount is negative, or the customer id is
missing; on success writes the claim with status `Pending` and appends a
`New → Pending` history row. -/
def createClaim (s : Store) (id customerId : String) (amount : ℚ)
    (actor role : String) : Except CSError Store :=
  match findClaim s id with
  | some _ => Except.error CSError.validationError
  | none =>
    if amount < 0 then Except.error CSError.validationError
    else if customerId = "" then Except.error CSError.validationError
    else Except.ok
      { claims := newClaimRec id customerId amount :: s.claims,
        history := s.history ++ [intakeRow id actor role s.clock],
        clock := s.clock + 1 }

/-- The committed effect of a successful transition: the claim's status (and
approved amount) updated in place, one history row appended with
`old_status` = the status before the call, and the clock advanced. -/
def applyTransition (s : Store) (c : Claim) (ns : Status) (amt : ℚ)
    (actor role : String) (reason : Option String) : Store :=
  { claims := s.claims.map (updateIfMatch c ns amt),
    history := s.history ++ [transRow c ns actor role reason s.clock],
    clock := s.clock + 1 }

/-- Modelled from the spec (§4.1 `transition`): `NotFoundError` for an
unknown claim_id; `InvalidTransitionError` when the new status equals the
current one, or when the current status is terminal (Approved/Denied) and
the caller is not performing an explicitly allowed override (`override` is
that explicit withdrawal/override flag); transitioning to `Approved`
requires an `approvedAmount` with `0 ≤ approvedAmount ≤ claim_amount`, else
`ValidationError`. On success the status is updated and a history row
appended. -/
def transition (s : Store) (id : String) (ns : Status) (actor role : String)
    (reason : Option String) (approvedAmount : Option ℚ) (override : Bool) :
    Except CSError Store :=
  match findClaim s id with
  | none => Except.error CSError.notFoundError
  | some c =>
    if ns = c.claim_status then Except.error CSError.invalidTransitionError
    else if (c.claim_status = Status.approved ∨ c.claim_status = Status.denied)
        ∧ override = false then
      Except.error CSError.invalidTransitionError
    else if ns = Status.approved then
      match approvedAmount with
      | none => Except.error CSError.validationError
      | some a =>
        if 0 ≤ a ∧ a ≤ c.claim_amount then
          Except.ok (applyTransition s c ns a actor role reason)
        else Except.error CSError.validationError
    else Except.ok (applyTransition s c ns c.approved_amount actor role reason)

/-- Stores reachable from the empty store by successful creates and
transitions: the lifecycle of §4.1 ("created once on intake; mutated only
through a recorded transition; never deleted"). -/
inductive Reachable : Store → Prop where
  | init : Reachable emptyStore
  | create (s s' : Store) (id customerId : String) (amount : ℚ)
      (actor role : String) :
      Reachable s → createClaim s id customerId amount actor role = Except.ok s' →
      Reachable s'
  | step (s s' : Store) (id : String) (ns : Status) (actor role : String)
      (reason : Option String) (amt : Option ℚ) (ov : Bool) :
      Reachable s → transition s id ns actor role reason amt ov = Except.ok s' →
      Reachable s'

/-- The per-claim history invariant of §3: the log rows of the claim, in
timestamp order, are nonempty, start at `New → Pending`, chain (each row's
`old_status` is the previous row's `new_status`), end at the claim's current
status, and carry strictly increasing timestamps. -/
def goodRows (rows : List HistoryRow) (cur : Status) : Prop :=
  rows ≠ [] ∧
  (∀ r, rows.head? = some r →
    r.old_status = Status.new ∧ r.new_status = Status.pending) ∧
  List.Chain' (fun a b => b.old_status = a.new_status) rows ∧
  (∀ r, rows.getLast? = some r → r.new_status = cur) ∧
  List.Chain' (fun a b => a.timestamp < b.timestamp) rows

/-- The store-wide invariant maintained by `createClaim` and `transition`,
stated on the components: all timestamps lie below the clock, every history
row belongs to a stored claim, and every stored claim's filtered log
satisfies `goodRows`. -/
def HistInv (claims : List Claim) (history : List HistoryRow) (clock : ℕ) :
    Prop :=
  (∀ h ∈ history, h.timestamp < clock) ∧
  (∀ h ∈ history, ∃ c ∈ claims, c.claim_id = h.claim_id) ∧
  (∀ c ∈ claims,
    goodRows (history.filter (fun h => h.claim_id = c.claim_id))
      c.claim_status)

/-- The invariant read off a store. -/
def StoreInv (s : Store) : Prop := HistInv s.claims s.history s.clock

/-! ## Drift evaluator (modelled from the spec §4.2) -/

/-- Modelled from the spec: the order on `(feature key, drift magnitude)`
pairs used for `drifted_features` — magnitude descending, ties broken by
lexical order of the feature key. -/
def featOrder : (String × ℚ) → (String × ℚ) → Prop :=
  fun a b => b.2 < a.2 ∨ (a.2 = b.2 ∧ a.1 ≤ b.1)

instance : DecidableRel featOrder :=
  fun a b => inferInstanceAs (Decidable (b.2 < a.2 ∨ (a.2 = b.2 ∧ a.1 ≤ b.1)))

instance : IsTotal (String × ℚ) featOrder where
  total := by
    intro a b
    rcases lt_trichotomy a.2 b.2 with h | h | h
    · exact Or.inr (Or.inl h)
    · rcases le_total a.1 b.1 with hk | hk
      · exact Or.inl (Or.inr ⟨h, hk⟩)
      · exact Or.inr (Or.inr ⟨h.symm, hk⟩)
    · exact Or.inl (Or.inl h)

instance : IsTrans (String × ℚ) featOrder where
  trans := by
    intro a b c hab hbc
    rcases hab with hab | ⟨hab1, hab2⟩ <;> rcases hbc with hbc | ⟨hbc1, hbc2⟩
    · exact Or.inl (lt_trans hbc hab)
    · exact Or.inl (hbc1 ▸ hab)
    · exact Or.inl (by rw [hab1]; exact hbc)
    · exact Or.inr ⟨hab1.trans hbc1, le_trans hab2 hbc2⟩

/-- Modelled from the spec (§4.2): severity classification — magnitude
greater than twice the threshold is "critical", greater than the threshold
is "warning", else "info". -/
def severityOf (m t : ℚ) : String :=
  if 2 * t < m then "critical"
  else if t < m then "warning"
  else "info"

/-- Modelled from the spec (§4.2): `has_drift = drift_magnitude > threshold`. -/
def hasDriftB (m t : ℚ) : Bool := decide (t < m)

/-- Modelled from the spec (§4.2): the drift evaluator's output record
`{has_drift, drift_magnitude, drifted_features, severity}`. -/
structure DriftEval where
  has_drift : Bool
  drift_magnitude : ℚ
  drifted_features : List String
  severity : String
deriving DecidableEq

/-- Modelled from the spec (§4.2): per-segment drift magnitude is the
absolute difference between current and baseline denial rate; a segment is
a `(key, baseline_rate, current_rate)` entry of the input window. -/
def segMagnitude (p : String × ℚ × ℚ) : ℚ := |p.2.2 - p.2.1|

/-- Modelled from the spec (§4.2): the aggregated drift magnitude — the
maximum per-segment magnitude over the whole window. -/
def driftMagnitude (segs : List (String × ℚ × ℚ)) : ℚ :=
  (segs.map segMagnitude).foldr max 0

/-- Modelled from the spec (§4.2): the `(key, magnitude)` pairs of the
segments whose individual magnitude exceeds the threshold, sorted magnitude
descending with ties broken by key order. -/
def driftedPairs (segs : List (String × ℚ × ℚ)) (t : ℚ) : List (String × ℚ) :=
  (segs.filterMap (fun p =>
    if t < segMagnitude p then some (p.1, segMagnitude p) else none)).insertionSort
    featOrder

/-- Modelled from the spec (§4.2): the drift evaluator — a pure function of
`(baseline, current, threshold)`; the per-segment rates come paired as
`(key, baseline_rate, current_rate)`. -/
def evaluateDrift (segs : List (String × ℚ × ℚ)) (t : ℚ) : DriftEval :=
  { has_drift := hasDriftB (driftMagnitude segs) t,
    drift_magnitude := driftMagnitude segs,
    drifted_features := (driftedPairs segs t).map Prod.fst,
    severity := severityOf (driftMagnitude segs) t }

/-! ## Monitoring metric analysis (src, Monitoring page: `analyzeMetricRuns`) -/

/-- A metric value of the monitoring feed: the TypeScript type is
`{[key: string]: number | string}`. -/
inductive MetricVal where
  | num (q : ℚ)
  | str (s : String)
deriving DecidableEq

/-- A monitoring run, restricted to the `metrics` dictionary that
`analyzeMetricRuns` reads; the dictionary is an association list in object
key order. -/
structure MonitoringRun where
  metrics : List (String × MetricVal)
deriving DecidableEq

/-- A JavaScript number that may be `NaN`: `none` stands for `NaN`. -/
abbrev JSNum := Option ℚ

/-- JavaScript addition on possibly-`NaN` numbers. -/
def jsAdd : JSNum → JSNum → JSNum
  | some a, some b => some (a + b)
  | _, _ => none

/-- JavaScript comparison `a < b`: false whenever either side is `NaN`. -/
def jsLtB : JSNum → JSNum → Bool
  | some a, some b => decide (a < b)
  | _, _ => false

/-- `Number(r.metrics[metric])`: a missing key gives `NaN`, a numeric value
itself; `Number` of the feed's string values (explanation texts) is `NaN`
(numeric-string parsing is not modelled — the theorems below only concern
numeric metric values). -/
def jsNumberOf : Option MetricVal → JSNum
  | some (MetricVal.num q) => some q
  | _ => none

/-- `key.endsWith('_explanation')` and the like, on the character lists of
the strings. -/
def strEndsWith (s t : String) : Bool := decide (List.IsSuffix t.data s.data)

/-- The metric names `analyzeMetricRuns` iterates:
`Object.keys(runs[0].metrics).filter((key) => !key.endsWith('_explanation'))`. -/
def metricNames (runs : List MonitoringRun) : List String :=
  match runs with
  | [] => []
  | r :: _ => (r.metrics.map Prod.fst).filter (fun k => !(strEndsWith k "_explanation"))

/-- `runs.map((r) => Number(r.metrics[metric]))`. -/
def valuesOf (runs : List MonitoringRun) (metric : String) : List JSNum :=
  runs.map (fun r => jsNumberOf (r.metrics.lookup metric))

/-- `values.reduce((sum, v) => sum + v, 0)`. -/
def jsSum (vs : List JSNum) : JSNum := vs.foldl jsAdd (some 0)

/-- `parseFloat(x.toFixed(2))` on an exact rational: round to two decimal
places, ties away from zero upward (ECMAScript `toFixed` picks the larger
candidate on a tie). -/
def round2 (q : ℚ) : ℚ := (Int.floor (q * 100 + 1 / 2) : ℚ) / 100

/-- `toFixed(2)` lifted to possibly-`NaN` numbers (`NaN.toFixed` reparses to
`NaN`). -/
def jsRound2 : JSNum → JSNum
  | some q => some (round2 q)
  | none => none

/-- The loop `for (let i = values.length - 1; i > 0; i--)
{ if (values[i] > values[i-1]) count++; else break; }`, run on the reversed
value list: it walks the sequence from its end, counting the consecutive
strict increases until the first non-increase. -/
def incRunLen : List JSNum → ℕ
  | a :: b :: rest => if jsLtB b a then incRunLen (b :: rest) + 1 else 0
  | _ => 0

/-- `lastIncreaseCount` of `analyzeMetricRuns`. -/
def lastIncreaseCount (vs : List JSNum) : ℕ := incRunLen vs.reverse

/-- One entry of the `MetricAnalysisResult` record. -/
structure MetricAnalysis where
  average : JSNum
  lastIncreaseCount : ℕ
deriving DecidableEq

/-- `analyzeMetricRuns` (frontend Monitoring page): the empty record for a
null or empty run list; otherwise, for each non-explanation metric key of
the first run, the run-average rounded to two decimals and the length of the
final strictly-increasing run of values. The result record is an association
list keyed in metric-name order. -/
def analyzeMetricRuns (runs : Option (List MonitoringRun)) :
    List (String × MetricAnalysis) :=
  match runs with
  | none => []
  | some rs =>
    if rs.isEmpty then []
    else
      (metricNames rs).map (fun metric =>
        let values := valuesOf rs metric
        let average := match jsSum values with
          | some sum => some (sum / (if values.length = 0 then 1 else (values.length : ℚ)))
          | none => none
        (metric, { average := jsRound2 average,
                   lastIncreaseCount := lastIncreaseCount values }))

/-- Specification-side helper: a Boolean test that a rational list is
strictly increasing. -/
def strictIncB : List ℚ → Bool
  | a :: b :: t => decide (a < b) && strictIncB (b :: t)
  | _ => true

/-- Specification-side helper: a Boolean test that a rational list is
strictly decreasing. -/
def strictDecB : List ℚ → Bool
  | a :: b :: t => decide (b < a) && strictDecB (b :: t)
  | _ => true

/-- Specification side of claim C8: the length of the longest
strictly-increasing suffix of the value sequence (the longest member of
`tails` that is strictly increasing). -/
def maxIncSuffixLen (qs : List ℚ) : ℕ :=
  ((qs.tails.filter strictIncB).map List.length).foldr max 0

/-- Helper mirroring `incRunLen` on plain rationals. -/
def incRunLenQ : List ℚ → ℕ
  | a :: b :: rest => if b < a then incRunLenQ (b :: rest) + 1 else 0
  | _ => 0

/-- Intermediate form used to relate `incRunLenQ` on the reversed list with
`maxIncSuffixLen`: the number of strict increases in the final
strictly-increasing run, computed front to back. -/
def incSuffCount : List ℚ → ℕ
  | a :: b :: t =>
    if strictIncB (a :: b :: t) then (b :: t).length else incSuffCount (b :: t)
  | _ => 0

/-! ## Status badge derivation (src/lib/api.ts `getStatusBadgeVariant`) -/

/-- The badge variants the helper returns. -/
inductive BadgeVariant where
  | success
  | warning
  | destructive
  | outline
  | variantDefault
deriving DecidableEq

/-- `status.toLowerCase()`: lower-case each character. -/
def strToLower (s : String) : String := String.mk (s.data.map Char.toLower)

/-- `s.includes(t)`: `t` occurs as a contiguous substring of `s`. -/
def strContains (s t : String) : Bool := decide (List.IsInfix t.data s.data)

/-- `getStatusBadgeVariant` (src/lib/api.ts): normalize to lower case, then
first match among approved / pending / denied-or-rejected / withdrawn wins,
else the default variant. -/
def getStatusBadgeVariant (status : String) : BadgeVariant :=
  let normalizedStatus := strToLower status
  if strContains normalizedStatus "approved" then BadgeVariant.success
  else if strContains normalizedStatus "pending" then BadgeVariant.warning
  else if strContains normalizedStatus "denied" || strContains normalizedStatus "rejected" then
    BadgeVariant.destructive
  else if strContains normalizedStatus "withdrawn" then BadgeVariant.outline
  else BadgeVariant.variantDefault

/-! ## Batch claim submission (src/lib/api.ts `claimsApi.submitClaimsBatch`) -/

/-- The outcome of `submitClaimsBatch` up to the single network call it
makes: either the synchronous throw (before any request is issued), or the
one POST request with its URL and the full file list appended as form
fields. `F` is the opaque type of browser `File` objects. -/
inductive BatchOutcome (F : Type) where
  | thrown (message : String)
  | posted (url : String) (files : List F)
deriving DecidableEq

/-- `submitClaimsBatch` (src/lib/api.ts): more than 10 files throws
"Maximum 10 files can be processed at once" before any request; otherwise
all files go out in one POST to `${API_BASE_URL}/api/claims/process/batch`. -/
def submitClaimsBatch {F : Type} (baseUrl : String) (files : List F) :
    BatchOutcome F :=
  if files.length > 10 then
    BatchOutcome.thrown "Maximum 10 files can be processed at once"
  else
    BatchOutcome.posted (baseUrl ++ "/api/claims/process/batch") files

/-! ## Concrete sample data for witnesses -/

/-- A store holding one claim already in the terminal status `Approved`. -/
def storeTerm : Store :=
  { claims := [{ claim_id := "CLM-9", customer_id := "CUST-9",
                 claim_amount := 100, approved_amount := 100,
                 claim_status := Status.approved }],
    history :=
      [{ claim_id := "CLM-9", old_status := Status.new,
         new_status := Status.pending, changed_by := "agent",
         role := "AI Agent", change_reason := none, timestamp := 0 },
       { claim_id := "CLM-9", old_status := Status.pending,
         new_status := Status.approved, changed_by := "agent",
         role := "AI Agent", change_reason := none, timestamp := 1 }],
    clock := 2 }

/-- A store holding one claim still `Pending`, with claim_amount 250. -/
def storePend : Store :=
  { claims := [{ claim_id := "CLM-2", customer_id := "CUST-2",
                 claim_amount := 250, approved_amount := 0,
                 claim_status := Status.pending }],
    history :=
      [{ claim_id := "CLM-2", old_status := Status.new,
         new_status := Status.pending, changed_by := "agent",
         role := "AI Agent", change_reason := none, timestamp := 0 }],
    clock := 1 }

/-- The claim row stored in `storePend`. -/
def claimPend : Claim :=
  { claim_id := "CLM-2", customer_id := "CUST-2",
    claim_amount := 250, approved_amount := 0,
    claim_status := Status.pending }

/-- The store after `createClaim emptyStore "CLM-1" "CUST-789456" 3250 ...`. -/
def storeW1 : Store :=
  { claims := [{ claim_id := "CLM-1", customer_id := "CUST-789456",
                 claim_amount := 3250, approved_amount := 0,
                 claim_status := Status.pending }],
    history :=
      [{ claim_id := "CLM-1", old_status := Status.new,
         new_status := Status.pending, changed_by := "Claims Processing Agent",
         role := "AI Agent", change_reason := none, timestamp := 0 }],
    clock := 1 }

/-- The store after further transitioning `CLM-1` from `Pending` to
`Denied` (the seed-data scenario). -/
def storeW2 : Store :=
  { claims := [{ claim_id := "CLM-1", customer_id := "CUST-789456",
                 claim_amount := 3250, approved_amount := 0,
                 claim_status := Status.denied }],
    history :=
      [{ claim_id := "CLM-1", old_status := Status.new,
         new_status := Status.pending, changed_by := "Claims Processing Agent",
         role := "AI Agent", change_reason := none, timestamp := 0 },
       { claim_id := "CLM-1", old_status := Status.pending,
         new_status := Status.denied, changed_by := "Claims Processing Agent",
         role := "AI Agent", change_reason := some "Drift detection alert",
         timestamp := 1 }],
    clock := 2 }

/-- The `CLM-1` claim row as it stands in `storeW2`. -/
def claimW : Claim :=
  { claim_id := "CLM-1", customer_id := "CUST-789456",
    claim_amount := 3250, approved_amount := 0,
    claim_status := Status.denied }

/-- A one-run monitoring window with a single numeric metric, used to
exhibit the off-by-one in claim C8. -/
def runsCex : List MonitoringRun :=
  [{ metrics := [("accuracy", MetricVal.num 1)] }]

/-! ## Theorems: severity classification (claim C3) -/

theorem severity_critical_iff (m t : ℚ) : severityOf m t = "critical" ↔ 2 * t < m := by
  unfold severityOf
  split_ifs with h1 h2
  · simp [h1]
  · exact ⟨fun hx => absurd hx (by decide), fun hx => absurd hx h1⟩
  · exact ⟨fun hx => absurd hx (by decide), fun hx => absurd hx h1⟩

theorem severity_warning_iff (m t : ℚ) :
    severityOf m t = "warning" ↔ t < m ∧ m ≤ 2 * t := by
  unfold severityOf
  split_ifs with h1 h2
  · exact ⟨fun hx => absurd hx (by decide), fun hx => absurd hx.2 (not_le.mpr h1)⟩
  · exact ⟨fun _ => ⟨h2, not_lt.mp h1⟩, fun _ => rfl⟩
  · exact ⟨fun hx => absurd hx (by decide), fun hx => absurd hx.1 h2⟩

theorem severity_info_iff (m t : ℚ) :
    severityOf m t = "info" ↔ ¬(2 * t < m) ∧ ¬(t < m ∧ m ≤ 2 * t) := by
  unfold severityOf
  split_ifs with h1 h2
  · exact ⟨fun hx => absurd hx (by decide), fun hx => absurd h1 hx.1⟩
  · exact ⟨fun hx => absurd hx (by decide), fun hx => absurd ⟨h2, not_lt.mp h1⟩ hx.2⟩
  · exact ⟨fun _ => ⟨h1, fun hc => absurd hc.1 h2⟩, fun _ => rfl⟩

/-- Claim C3: severity is "critical" exactly when the magnitude exceeds
twice the threshold, "warning" exactly when it exceeds the threshold but not
twice the threshold, and "info" otherwise; `has_drift` holds exactly when
the magnitude exceeds the threshold; in particular magnitude 0.24 against
threshold 0.15 yields `has_drift = true` and severity "warning". -/
theorem drift_severity_classification :
    ∀ m t : ℚ,
      (severityOf m t = "critical" ↔ 2 * t < m) ∧
      (severityOf m t = "warning" ↔ t < m ∧ m ≤ 2 * t) ∧
      (severityOf m t = "info" ↔ ¬(2 * t < m) ∧ ¬(t < m ∧ m ≤ 2 * t)) ∧
      (hasDriftB m t = true ↔ t < m) ∧
      hasDriftB (24 / 100) (15 / 100) = true ∧
      severityOf (24 / 100) (15 / 100) = "warning" := by
  intro m t
  refine ⟨severity_critical_iff m t, severity_warning_iff m t,
    severity_info_iff m t, by simp [hasDriftB], ?_, ?_⟩
  · simp only [hasDriftB, decide_eq_true_eq]
    norm_num
  · rw [severity_warning_iff]
    norm_num

/-! ## Theorems: schema CHECK sets versus the state machine (claim C5) -/

/-- Claim C5 counterexample: the withdrawal path of the claim-details page
sends the status "Withdrawn", which the schema's CHECK constraints on
`claim_status` and `new_status` do not admit. -/
theorem withdrawn_escapes_check_sets :
    withdrawRequestStatus ∉ newStatusAllowed ∧
    withdrawRequestStatus ∉ claimStatusAllowed := by decide

/-- Claim C5 (amended): the CHECK sets of `claim_status` and `new_status`
are exactly the state-machine statuses {Approved, Pending, Denied}, the
CHECK set of `old_status` is exactly those plus the pseudo-initial "New",
and the seed data writes only allowed values; but the frontend withdrawal
path writes "Withdrawn", which lies outside the CHECK sets. -/
theorem status_check_sets_match_state_machine :
    (∀ st : Status, statusName st ∈ claimStatusAllowed ↔
      (st = Status.pending ∨ st = Status.approved ∨ st = Status.denied)) ∧
    (∀ st : Status, statusName st ∈ newStatusAllowed ↔
      (st = Status.pending ∨ st = Status.approved ∨ st = Status.denied)) ∧
    (∀ st : Status, statusName st ∈ oldStatusAllowed ↔
      (st = Status.pending ∨ st = Status.approved ∨ st = Status.denied ∨
        st = Status.new)) ∧
    seedClaimStatus ∈ claimStatusAllowed ∧
    (∀ p ∈ seedHistoryTransitions,
      p.1 ∈ oldStatusAllowed ∧ p.2 ∈ newStatusAllowed) ∧
    statusName Status.withdrawn = withdrawRequestStatus ∧
    withdrawRequestStatus ∉ claimStatusAllowed ∧
    withdrawRequestStatus ∉ newStatusAllowed := by
  refine ⟨?_, ?_, ?_, by decide, by decide, by decide, by decide, by decide⟩ <;>
    (intro st; cases st <;> decide)

/-! ## Theorems: drift evaluator determinism (claim C6) -/

/-- Claim C6: the drift evaluator is a pure, stateless function — two
invocations on identical `(baseline, current, threshold)` inputs return
identical `{has_drift, drift_magnitude, drifted_features, severity}`
records. -/
theorem drift_evaluator_deterministic
    (segs1 segs2 : List (String × ℚ × ℚ)) (t1 t2 : ℚ)
    (hsegs : segs1 = segs2) (ht : t1 = t2) :
    evaluateDrift segs1 t1 = evaluateDrift segs2 t2 := by
  rw [hsegs, ht]

/-- Claim C6 witness: two invocations on the seed-data window (baseline
denial rate 0.10, current 0.34, threshold 0.15) agree. -/
theorem drift_evaluator_deterministic_witness :
    evaluateDrift [("provider-net-1", 10 / 100, 34 / 100)] (15 / 100) =
      evaluateDrift [("provider-net-1", 10 / 100, 34 / 100)] (15 / 100) :=
  drift_evaluator_deterministic _ _ _ _ rfl rfl

/-! ## Theorems: status badge precedence (claim C9) -/

/-- Claim C9: `getStatusBadgeVariant` is a total, case-insensitive function
with fixed precedence — a lowercase form containing "approved" gives
`success` (so "Not Approved" gives `success`), otherwise "pending" gives
`warning`, otherwise "denied" or "rejected" gives `destructive`, otherwise
"withdrawn" gives `outline`, and anything else gives the default variant. -/
theorem statusBadge_precedence :
    ∀ status : String,
      (strContains (strToLower status) "approved" = true →
        getStatusBadgeVariant status = BadgeVariant.success) ∧
      (strContains (strToLower status) "approved" = false →
        strContains (strToLower status) "pending" = true →
        getStatusBadgeVariant status = BadgeVariant.warning) ∧
      (strContains (strToLower status) "approved" = false →
        strContains (strToLower status) "pending" = false →
        (strContains (strToLower status) "denied" = true ∨
          strContains (strToLower status) "rejected" = true) →
        getStatusBadgeVariant status = BadgeVariant.destructive) ∧
      (strContains (strToLower status) "approved" = false →
        strContains (strToLower status) "pending" = false →
        strContains (strToLower status) "denied" = false →
        strContains (strToLower status) "rejected" = false →
        strContains (strToLower status) "withdrawn" = true →
        getStatusBadgeVariant status = BadgeVariant.outline) ∧
      (strContains (strToLower status) "approved" = false →
        strContains (strToLower status) "pending" = false →
        strContains (strToLower status) "denied" = false →
        strContains (strToLower status) "rejected" = false →
        strContains (strToLower status) "withdrawn" = false →
        getStatusBadgeVariant status = BadgeVariant.variantDefault) ∧
      (∀ other : String, strToLower status = strToLower other →
        getStatusBadgeVariant status = getStatusBadgeVariant other) ∧
      getStatusBadgeVariant "Not Approved" = BadgeVariant.success := by
  intro status
  refine ⟨?_, ?_, ?_, ?_, ?_, ?_, by decide⟩
  · intro h1; simp [getStatusBadgeVariant, h1]
  · intro h1 h2; simp [getStatusBadgeVariant, h1, h2]
  · intro h1 h2 h3
    rcases h3 with h3 | h3 <;> simp [getStatusBadgeVariant, h1, h2, h3]
  · intro h1 h2 h3 h4 h5; simp [getStatusBadgeVariant, h1, h2, h3, h4, h5]
  · intro h1 h2 h3 h4 h5; simp [getStatusBadgeVariant, h1, h2, h3, h4, h5]
  · intro other h; simp only [getStatusBadgeVariant, h]

/-! ## Theorems: batch submission bound (claim C10) -/

/-- Claim C10: submitting more than 10 files throws "Maximum 10 files can
be processed at once" before any network request is issued; submitting at
most 10 files issues exactly one POST of all the files to
`/api/claims/process/batch`. -/
theorem submitClaimsBatch_spec :
    ∀ (F : Type) (baseUrl : String) (files : List F),
      (files.length > 10 →
        submitClaimsBatch baseUrl files =
          BatchOutcome.thrown "Maximum 10 files can be processed at once") ∧
      (files.length ≤ 10 →
        submitClaimsBatch baseUrl files =
          BatchOutcome.posted (baseUrl ++ "/api/claims/process/batch") files) := by
  intro F baseUrl files
  refine ⟨fun h => ?_, fun h => ?_⟩
  · unfold submitClaimsBatch
    rw [if_pos h]
  · unfold submitClaimsBatch
    rw [if_neg (by omega)]

/-! ## Theorems: terminal statuses are sticky (claim C1) -/

/-- Claim C1: for a claim whose current status is terminal (Approved or
Denied), `transition` to any status without the explicit withdrawal/override
flag fails with `InvalidTransitionError`; and `transition` to the claim's
current status fails with `InvalidTransitionError` whatever the flag. -/
theorem claim_terminal_transitions_blocked
    (s : Store) (id : String) (ns : Status) (actor role : String)
    (reason : Option String) (amt : Option ℚ) (c : Claim)
    (hc : findClaim s id = some c) :
    ((c.claim_status = Status.approved ∨ c.claim_status = Status.denied) →
      transition s id ns actor role reason amt false =
        Except.error CSError.invalidTransitionError) ∧
    (ns = c.claim_status →
      ∀ ov : Bool, transition s id ns actor role reason amt ov =
        Except.error CSError.invalidTransitionError) := by
  constructor
  · intro hterm
    simp only [transition, hc]
    by_cases hns : ns = c.claim_status
    · rw [if_pos hns]
    · rw [if_neg hns, if_pos ⟨hterm, trivial⟩]
  · intro hns ov
    simp only [transition, hc]
    rw [if_pos hns]

/-- Claim C1 witness: in a store whose only claim `CLM-9` is Approved,
reopening it to Pending without the override flag fails, and a transition to
its own current status fails even with the flag set. -/
theorem claim_terminal_transitions_blocked_witness :
    transition storeTerm "CLM-9" Status.pending "user" "User"
        (some "please reopen") none false =
      Except.error CSError.invalidTransitionError ∧
    transition storeTerm "CLM-9" Status.approved "user" "User" none none true =
      Except.error CSError.invalidTransitionError :=
  ⟨(claim_terminal_transitions_blocked storeTerm "CLM-9" Status.pending
      "user" "User" (some "please reopen") none _ rfl).1 (Or.inl rfl),
   (claim_terminal_transitions_blocked storeTerm "CLM-9" Status.approved
      "user" "User" none none _ rfl).2 rfl true⟩

/-! ## Theorems: approved-amount validation (claim C4) -/

/-- Claim C4: transitioning a pending claim to Approved demands an
approved_amount within `[0, claim_amount]` — a missing amount, a negative
amount, or an amount above `claim_amount` fails with `ValidationError`,
while the boundary `approved_amount = claim_amount` succeeds and commits
the transition. -/
theorem approved_amount_validation
    (s : Store) (id : String) (actor role : String) (reason : Option String)
    (ov : Bool) (c : Claim) (hc : findClaim s id = some c)
    (hp : c.claim_status = Status.pending) (h0 : 0 ≤ c.claim_amount) :
    (transition s id Status.approved actor role reason none ov =
      Except.error CSError.validationError) ∧
    (∀ a : ℚ, a < 0 →
      transition s id Status.approved actor role reason (some a) ov =
        Except.error CSError.validationError) ∧
    (∀ a : ℚ, c.claim_amount < a →
      transition s id Status.approved actor role reason (some a) ov =
        Except.error CSError.validationError) ∧
    (transition s id Status.approved actor role reason (some c.claim_amount) ov =
      Except.ok (applyTransition s c Status.approved c.claim_amount
        actor role reason)) := by
  have hns : ¬(Status.approved = c.claim_status) := by
    rw [hp]; intro h; exact Status.noConfusion h
  have hterm : ¬((c.claim_status = Status.approved ∨
      c.claim_status = Status.denied) ∧ ov = false) := by
    rw [hp]; rintro ⟨h | h, _⟩ <;> exact Status.noConfusion h
  refine ⟨?_, ?_, ?_, ?_⟩
  · simp only [transition, hc]
    rw [if_neg hns, if_neg hterm, if_pos trivial]
  · intro a ha
    simp only [transition, hc]
    rw [if_neg hns, if_neg hterm, if_pos trivial, if_neg ?_]
    rintro ⟨h1, _⟩
    exact absurd h1 (not_le.mpr ha)
  · intro a ha
    simp only [transition, hc]
    rw [if_neg hns, if_neg hterm, if_pos trivial, if_neg ?_]
    rintro ⟨_, h2⟩
    exact absurd h2 (not_le.mpr ha)
  · simp only [transition, hc]
    rw [if_neg hns, if_neg hterm, if_pos trivial,
      if_pos ⟨h0, le_refl c.claim_amount⟩]

/-- Claim C4 witness: on the pending claim `CLM-2` with claim_amount 250,
approving with no amount fails, with 300 fails, and the boundary amount 250
succeeds. -/
theorem approved_amount_validation_witness :
    (transition storePend "CLM-2" Status.approved "rev" "Reviewer" none
        none false = Except.error CSError.validationError) ∧
    (transition storePend "CLM-2" Status.approved "rev" "Reviewer" none
        (some 300) false = Except.error CSError.validationError) ∧
    (transition storePend "CLM-2" Status.approved "rev" "Reviewer" none
        (some 250) false =
      Except.ok (applyTransition storePend claimPend Status.approved 250
        "rev" "Reviewer" none)) :=
  ⟨(approved_amount_validation storePend "CLM-2" "rev" "Reviewer" none false
      claimPend rfl rfl (by norm_num [claimPend])).1,
   (approved_amount_validation storePend "CLM-2" "rev" "Reviewer" none false
      claimPend rfl rfl (by norm_num [claimPend])).2.2.1 300 (by norm_num [claimPend]),
   (approved_amount_validation storePend "CLM-2" "rev" "Reviewer" none false
      claimPend rfl rfl (by norm_num [claimPend])).2.2.2⟩

/-! ## Theorems: drifted features (claim C7) -/

theorem mem_driftedPairs (segs : List (String × ℚ × ℚ)) (t : ℚ)
    (pr : String × ℚ) :
    pr ∈ driftedPairs segs t ↔
      ∃ p ∈ segs, t < segMagnitude p ∧ pr = (p.1, segMagnitude p) := by
  unfold driftedPairs
  rw [List.mem_insertionSort, List.mem_filterMap]
  constructor
  · rintro ⟨p, hp, he⟩
    by_cases hgt : t < segMagnitude p
    · rw [if_pos hgt] at he
      exact ⟨p, hp, hgt, (Option.some.inj he).symm⟩
    · rw [if_neg hgt] at he
      exact absurd he (by simp)
  · rintro ⟨p, hp, hgt, he⟩
    exact ⟨p, hp, by rw [if_pos hgt, he]⟩

/-- Claim C7: `drifted_features` contains exactly the segment keys whose
individual drift magnitude exceeds the threshold, and it is the key
projection of the pair list sorted by `featOrder` — magnitude descending,
ties broken by lexical key order. -/
theorem drifted_features_spec :
    ∀ (segs : List (String × ℚ × ℚ)) (t : ℚ),
      (∀ k : String, k ∈ (evaluateDrift segs t).drifted_features ↔
        ∃ p ∈ segs, p.1 = k ∧ t < segMagnitude p) ∧
      (evaluateDrift segs t).drifted_features =
        (driftedPairs segs t).map Prod.fst ∧
      List.Sorted featOrder (driftedPairs segs t) ∧
      (∀ a b : String × ℚ,
        featOrder a b ↔ (b.2 < a.2 ∨ (a.2 = b.2 ∧ a.1 ≤ b.1))) := by
  intro segs t
  refine ⟨?_, rfl, List.sorted_insertionSort featOrder _, fun a b => Iff.rfl⟩
  intro k
  simp only [evaluateDrift, List.mem_map]
  constructor
  · rintro ⟨pr, hpr, hk⟩
    rcases (mem_driftedPairs segs t pr).mp hpr with ⟨p, hp, hgt, he⟩
    refine ⟨p, hp, ?_, hgt⟩
    rw [he] at hk
    exact hk
  · rintro ⟨p, hp, hk, hgt⟩
    exact ⟨(p.1, segMagnitude p),
      (mem_driftedPairs segs t _).mpr ⟨p, hp, hgt, rfl⟩, hk⟩

/-! ## Theorems: the history invariant (claim C2) -/

theorem findClaim_some_facts (s : Store) (id : String) (c : Claim)
    (h : findClaim s id = some c) : c ∈ s.claims ∧ c.claim_id = id := by
  unfold findClaim at h
  refine ⟨List.mem_of_find?_eq_some h, ?_⟩
  have := List.find?_some h
  simpa using this

theorem findClaim_none_facts (s : Store) (id : String)
    (h : findClaim s id = none) : ∀ c ∈ s.claims, c.claim_id ≠ id := by
  unfold findClaim at h
  rw [List.find?_eq_none] at h
  intro c hc
  have := h c hc
  simpa using this

theorem goodRows_single (r : HistoryRow)
    (h1 : r.old_status = Status.new) (h2 : r.new_status = Status.pending) :
    goodRows [r] r.new_status := by
  refine ⟨by simp, ?_, List.chain'_singleton r, ?_, List.chain'_singleton r⟩
  · intro x hx
    simp only [List.head?_cons, Option.some.injEq] at hx
    subst hx
    exact ⟨h1, h2⟩
  · intro x hx
    simp only [List.getLast?_singleton, Option.some.injEq] at hx
    subst hx
    rfl

theorem goodRows_snoc (L : List HistoryRow) (cur : Status) (r : HistoryRow)
    (hL : goodRows L cur) (hold : r.old_status = cur)
    (htime : ∀ a ∈ L, a.timestamp < r.timestamp) :
    goodRows (L ++ [r]) r.new_status := by
  obtain ⟨hne, hhead, hchain, hlast, htimes⟩ := hL
  refine ⟨by simp, ?_, ?_, ?_, ?_⟩
  · intro x hx
    cases L with
    | nil => exact absurd rfl hne
    | cons z L2 =>
      simp only [List.cons_append, List.head?_cons, Option.some.injEq] at hx
      subst hx
      exact hhead _ rfl
  · rw [List.chain'_append]
    refine ⟨hchain, List.chain'_singleton r, ?_⟩
    intro a ha b hb
    simp only [List.head?_cons, Option.mem_def, Option.some.injEq] at hb
    subst hb
    rw [hold, hlast a (Option.mem_def.mp ha)]
  · intro x hx
    rw [List.getLast?_concat] at hx
    rw [← Option.some.inj hx]
  · rw [List.chain'_append]
    refine ⟨htimes, List.chain'_singleton r, ?_⟩
    intro a ha b hb
    simp only [List.head?_cons, Option.mem_def, Option.some.injEq] at hb
    subst hb
    exact htime a (List.mem_of_getLast?_eq_some (Option.mem_def.mp ha))

theorem storeInv_empty : StoreInv emptyStore := by
  refine ⟨?_, ?_, ?_⟩
  · intro h hh
    simp [emptyStore] at hh
  · intro h hh
    simp [emptyStore] at hh
  · intro c hc
    simp [emptyStore] at hc

theorem histInv_create
    (claims : List Claim) (history : List HistoryRow) (clock : ℕ)
    (id customerId : String) (amount : ℚ) (actor role : String)
    (hinv : HistInv claims history clock)
    (hnone : ∀ c ∈ claims, c.claim_id ≠ id) :
    HistInv (newClaimRec id customerId amount :: claims)
      (history ++ [intakeRow id actor role clock]) (clock + 1) := by
  obtain ⟨hclock, hown, hgood⟩ := hinv
  refine ⟨?_, ?_, ?_⟩
  · intro r hr
    rcases List.mem_append.mp hr with hr | hr
    · exact Nat.lt_succ_of_lt (hclock r hr)
    · rw [List.mem_singleton] at hr
      rw [hr]
      exact Nat.lt_succ_self clock
  · intro r hr
    rcases List.mem_append.mp hr with hr | hr
    · obtain ⟨c, hc, hcid⟩ := hown r hr
      exact ⟨c, List.mem_cons_of_mem _ hc, hcid⟩
    · rw [List.mem_singleton] at hr
      refine ⟨newClaimRec id customerId amount, List.mem_cons_self _ _, ?_⟩
      rw [hr]
      rfl
  · intro c hc
    rcases List.mem_cons.mp hc with hc | hc
    · subst hc
      rw [List.filter_append]
      have hold : history.filter
          (fun h => h.claim_id = (newClaimRec id customerId amount).claim_id)
            = [] := by
        rw [List.filter_eq_nil_iff]
        intro a ha
        simp only [newClaimRec, decide_eq_true_eq]
        intro heq
        obtain ⟨c0, hc0, hc0id⟩ := hown a ha
        exact hnone c0 hc0 (by rw [hc0id, heq])
      rw [hold, List.nil_append]
      have hkeep : [intakeRow id actor role clock].filter
          (fun h => h.claim_id = (newClaimRec id customerId amount).claim_id)
            = [intakeRow id actor role clock] := by
        simp [intakeRow, newClaimRec]
      rw [hkeep]
      exact goodRows_single _ rfl rfl
    · have hcid : c.claim_id ≠ id := hnone c hc
      rw [List.filter_append]
      have hskip : [intakeRow id actor role clock].filter
          (fun h => h.claim_id = c.claim_id) = [] := by
        simp [intakeRow, Ne.symm hcid]
      rw [hskip, List.append_nil]
      exact hgood c hc

theorem histInv_update
    (claims : List Claim) (history : List HistoryRow) (clock : ℕ)
    (c : Claim) (ns : Status) (amt : ℚ) (actor role : String)
    (reason : Option String)
    (hinv : HistInv claims history clock) (hc : c ∈ claims) :
    HistInv (claims.map (updateIfMatch c ns amt))
      (history ++ [transRow c ns actor role reason clock]) (clock + 1) := by
  obtain ⟨hclock, hown, hgood⟩ := hinv
  have hupd_id : ∀ x : Claim,
      (updateIfMatch c ns amt x).claim_id = x.claim_id := by
    intro x
    unfold updateIfMatch
    split_ifs with h
    · rfl
    · rfl
  refine ⟨?_, ?_, ?_⟩
  · intro r hr
    rcases List.mem_append.mp hr with hr | hr
    · exact Nat.lt_succ_of_lt (hclock r hr)
    · rw [List.mem_singleton] at hr
      rw [hr]
      exact Nat.lt_succ_self clock
  · intro r hr
    rcases List.mem_append.mp hr with hr | hr
    · obtain ⟨c0, hc0, hc0id⟩ := hown r hr
      exact ⟨updateIfMatch c ns amt c0, List.mem_map_of_mem _ hc0,
        by rw [hupd_id, hc0id]⟩
    · rw [List.mem_singleton] at hr
      refine ⟨updateIfMatch c ns amt c, List.mem_map_of_mem _ hc, ?_⟩
      rw [hupd_id, hr]
      rfl
  · intro c' hc'
    obtain ⟨x, hx, hxe⟩ := List.mem_map.mp hc'
    rw [List.filter_append]
    by_cases hmatch : x.claim_id = c.claim_id
    · have hc'e : c' = { x with claim_status := ns, approved_amount := amt } := by
        rw [← hxe]
        unfold updateIfMatch
        rw [if_pos hmatch]
      have hc'id : c'.claim_id = c.claim_id := by
        rw [hc'e]
        exact hmatch
      have hkeep : [transRow c ns actor role reason clock].filter
          (fun h => h.claim_id = c'.claim_id) = [transRow c ns actor role reason clock] := by
        simp [transRow, hc'id]
      have hrewr : history.filter (fun h => h.claim_id = c'.claim_id) =
          history.filter (fun h => h.claim_id = c.claim_id) := by
        rw [hc'id]
      rw [hkeep, hrewr]
      have htimes : ∀ a ∈ history.filter (fun h => h.claim_id = c.claim_id),
          a.timestamp < (transRow c ns actor role reason clock).timestamp := by
        intro a ha
        exact hclock a (List.mem_of_mem_filter ha)
      have hsnoc := goodRows_snoc _ c.claim_status
        (transRow c ns actor role reason clock) (hgood c hc) rfl htimes
      rw [hc'e]
      exact hsnoc
    · have hc'e : c' = x := by
        rw [← hxe]
        unfold updateIfMatch
        rw [if_neg hmatch]
      subst hc'e
      have hskip : [transRow c ns actor role reason clock].filter
          (fun h => h.claim_id = c'.claim_id) = [] := by
        simp only [transRow]
        simp [Ne.symm hmatch]
      rw [hskip, List.append_nil]
      exact hgood c' hx

theorem storeInv_create (s s' : Store) (id customerId : String) (amount : ℚ)
    (actor role : String) (hinv : StoreInv s)
    (h : createClaim s id customerId amount actor role = Except.ok s') :
    StoreInv s' := by
  unfold createClaim at h
  cases hfind : findClaim s id with
  | some c =>
    rw [hfind] at h
    simp at h
  | none =>
    rw [hfind] at h
    dsimp only at h
    by_cases h1 : amount < 0
    · rw [if_pos h1] at h
      simp at h
    · rw [if_neg h1] at h
      by_cases h2 : customerId = ""
      · rw [if_pos h2] at h
        simp at h
      · rw [if_neg h2] at h
        have h3 := Except.ok.inj h
        subst h3
        exact histInv_create s.claims s.history s.clock id customerId amount
          actor role hinv (findClaim_none_facts s id hfind)

theorem storeInv_transition (s s' : Store) (id : String) (ns : Status)
    (actor role : String) (reason : Option String) (amt : Option ℚ)
    (ov : Bool) (hinv : StoreInv s)
    (h : transition s id ns actor role reason amt ov = Except.ok s') :
    StoreInv s' := by
  unfold transition at h
  cases hfind : findClaim s id with
  | none =>
    rw [hfind] at h
    simp at h
  | some c =>
    rw [hfind] at h
    dsimp only at h
    obtain ⟨hcmem, hcid⟩ := findClaim_some_facts s id c hfind
    by_cases hb1 : ns = c.claim_status
    · rw [if_pos hb1] at h
      simp at h
    · rw [if_neg hb1] at h
      by_cases hb2 : (c.claim_status = Status.approved ∨
          c.claim_status = Status.denied) ∧ ov = false
      · rw [if_pos hb2] at h
        simp at h
      · rw [if_neg hb2] at h
        by_cases hb3 : ns = Status.approved
        · rw [if_pos hb3] at h
          cases amt with
          | none => simp at h
          | some a =>
            dsimp only at h
            by_cases hb4 : 0 ≤ a ∧ a ≤ c.claim_amount
            · rw [if_pos hb4] at h
              have h5 := Except.ok.inj h
              subst h5
              exact histInv_update s.claims s.history s.clock c ns a
                actor role reason hinv hcmem
            · rw [if_neg hb4] at h
              simp at h
        · rw [if_neg hb3] at h
          have h5 := Except.ok.inj h
          subst h5
          exact histInv_update s.claims s.history s.clock c ns
            c.approved_amount actor role reason hinv hcmem

theorem reachable_storeInv (s : Store) (hs : Reachable s) : StoreInv s := by
  induction hs with
  | init => exact storeInv_empty
  | create s s2 id customerId amount actor role hr h ih =>
    exact storeInv_create s s2 id customerId amount actor role ih h
  | step s s2 id ns actor role reason amt ov hr h ih =>
    exact storeInv_transition s s2 id ns actor role reason amt ov ih h

/-- Claim C2: in every reachable store, each claim's history rows, ordered
by timestamp (which coincides with log order, as the timestamps are
strictly increasing), form the exact transition sequence the claim
underwent: the rows chain (each row's `old_status` is the previous row's
`new_status`), the very first row — recorded at creation — has
`old_status = New` and `new_status = Pending`, and the latest row's
`new_status` equals the claim's current `claim_status`. -/
theorem claim_history_invariant (s : Store) (hs : Reachable s) :
    ∀ c ∈ s.claims,
      goodRows (rowsFor s c.claim_id) c.claim_status ∧
      List.Pairwise (fun a b => a.timestamp < b.timestamp)
        (rowsFor s c.claim_id) := by
  intro c hc
  have hinv := reachable_storeInv s hs
  have hg := hinv.2.2 c hc
  refine ⟨hg, ?_⟩
  haveI : IsTrans HistoryRow (fun a b => a.timestamp < b.timestamp) :=
    ⟨fun a b c h1 h2 => lt_trans h1 h2⟩
  exact List.chain'_iff_pairwise.mp hg.2.2.2.2

/-- Claim C2 witness: the store reached by creating `CLM-1` (amount 3250)
and then denying it satisfies the history invariant for `CLM-1` — rows
`New → Pending`, `Pending → Denied`, latest `new_status` = `Denied`. -/
theorem claim_history_invariant_witness :
    goodRows (rowsFor storeW2 claimW.claim_id) claimW.claim_status ∧
    List.Pairwise (fun a b => a.timestamp < b.timestamp)
      (rowsFor storeW2 claimW.claim_id) := by
  have h1 : createClaim emptyStore "CLM-1" "CUST-789456" 3250
      "Claims Processing Agent" "AI Agent" = Except.ok storeW1 := by rfl
  have h2 : transition storeW1 "CLM-1" Status.denied
      "Claims Processing Agent" "AI Agent" (some "Drift detection alert")
      none false = Except.ok storeW2 := by rfl
  have hreach : Reachable storeW2 :=
    Reachable.step storeW1 storeW2 "CLM-1" Status.denied
      "Claims Processing Agent" "AI Agent" (some "Drift detection alert")
      none false
      (Reachable.create emptyStore storeW1 "CLM-1" "CUST-789456" 3250
        "Claims Processing Agent" "AI Agent" Reachable.init h1)
      h2
  exact claim_history_invariant storeW2 hreach claimW (by decide)

/-! ## Theorems: metric run analysis (claim C8) -/

theorem foldl_jsAdd_some : ∀ (qs : List ℚ) (a : ℚ),
    List.foldl jsAdd (some a) (qs.map some) = some (a + qs.sum)
  | [], a => by simp [jsAdd]
  | q :: t, a => by
    simp only [List.map_cons, List.foldl_cons, jsAdd, List.sum_cons]
    rw [foldl_jsAdd_some t (a + q)]
    rw [add_assoc]

theorem jsSum_map_some (qs : List ℚ) : jsSum (qs.map some) = some qs.sum := by
  unfold jsSum
  rw [foldl_jsAdd_some qs 0, zero_add]

theorem incRunLenQ_cons_cons (a b : ℚ) (t : List ℚ) :
    incRunLenQ (a :: b :: t) = if b < a then incRunLenQ (b :: t) + 1 else 0 :=
  rfl

theorem strictDecB_cons_cons (a b : ℚ) (t : List ℚ) :
    strictDecB (a :: b :: t) = (decide (b < a) && strictDecB (b :: t)) := rfl

theorem incRunLen_map_some : ∀ qs : List ℚ,
    incRunLen (qs.map some) = incRunLenQ qs
  | [] => rfl
  | [_] => rfl
  | a :: b :: t => by
    simp only [List.map_cons, incRunLen, incRunLenQ, jsLtB]
    rw [← List.map_cons some b t, incRunLen_map_some (b :: t)]
    by_cases hba : b < a <;> simp [hba]

theorem strictIncB_iff_chain : ∀ l : List ℚ,
    strictIncB l = true ↔ List.Chain' (fun a b : ℚ => a < b) l
  | [] => by simp [strictIncB]
  | [a] => by simp [strictIncB]
  | a :: b :: t => by
    rw [List.chain'_cons, ← strictIncB_iff_chain (b :: t)]
    simp [strictIncB]

theorem strictDecB_iff_chain : ∀ l : List ℚ,
    strictDecB l = true ↔ List.Chain' (fun a b : ℚ => b < a) l
  | [] => by simp [strictDecB]
  | [a] => by simp [strictDecB]
  | a :: b :: t => by
    rw [List.chain'_cons, ← strictDecB_iff_chain (b :: t)]
    simp [strictDecB]

theorem strictDecB_reverse (l : List ℚ) :
    strictDecB l.reverse = strictIncB l := by
  rw [Bool.eq_iff_iff, strictDecB_iff_chain, strictIncB_iff_chain]
  exact List.chain'_reverse

theorem incRunLenQ_snoc : ∀ (r : List ℚ) (a : ℚ),
    incRunLenQ (r ++ [a]) =
      if strictDecB (r ++ [a]) then r.length else incRunLenQ r
  | [], a => by simp [incRunLenQ, strictDecB]
  | [x], a => by
    by_cases hax : a < x <;> simp [incRunLenQ, strictDecB, hax]
  | x :: y :: r2, a => by
    have IH := incRunLenQ_snoc (y :: r2) a
    rw [show (x :: y :: r2) ++ [a] = x :: y :: (r2 ++ [a]) from rfl]
    rw [incRunLenQ_cons_cons, strictDecB_cons_cons]
    rw [show y :: (r2 ++ [a]) = (y :: r2) ++ [a] from rfl]
    rw [IH, incRunLenQ_cons_cons]
    by_cases hyx : y < x
    · by_cases hd : strictDecB ((y :: r2) ++ [a]) = true
      · simp only [List.cons_append] at hd
        simp [hyx, hd]
      · simp only [Bool.not_eq_true, List.cons_append] at hd
        simp [hyx, hd]
    · simp [hyx]

theorem maxIncSuffixLen_nil : maxIncSuffixLen [] = 0 := rfl

theorem maxIncSuffixLen_cons (a : ℚ) (t : List ℚ) :
    maxIncSuffixLen (a :: t) =
      max (if strictIncB (a :: t) then t.length + 1 else 0)
        (maxIncSuffixLen t) := by
  by_cases h : strictIncB (a :: t) = true
  · simp [maxIncSuffixLen, List.filter_cons, h]
  · simp only [Bool.not_eq_true] at h
    simp [maxIncSuffixLen, List.filter_cons, h]

theorem maxIncSuffixLen_le_length : ∀ l : List ℚ,
    maxIncSuffixLen l ≤ l.length
  | [] => le_refl 0
  | a :: t => by
    have IH := maxIncSuffixLen_le_length t
    rw [maxIncSuffixLen_cons]
    by_cases h : strictIncB (a :: t) = true
    · simp only [if_pos h, List.length_cons]
      omega
    · simp only [Bool.not_eq_true] at h
      simp only [h, Bool.false_eq_true, if_false, List.length_cons]
      omega

theorem maxIncSuffixLen_eq_incSuffCount : ∀ l : List ℚ, l ≠ [] →
    maxIncSuffixLen l = incSuffCount l + 1
  | [], h => absurd rfl h
  | [a], _ => by
    rw [maxIncSuffixLen_cons]
    simp [strictIncB, incSuffCount, maxIncSuffixLen_nil]
  | a :: b :: t, _ => by
    have IH := maxIncSuffixLen_eq_incSuffCount (b :: t) (by simp)
    rw [maxIncSuffixLen_cons]
    by_cases h : strictIncB (a :: b :: t) = true
    · have hbt : maxIncSuffixLen (b :: t) ≤ (b :: t).length :=
        maxIncSuffixLen_le_length (b :: t)
      simp only [if_pos h, incSuffCount, h, if_true]
      simp only [List.length_cons] at hbt ⊢
      omega
    · simp only [Bool.not_eq_true] at h
      simp only [h, Bool.false_eq_true, if_false, incSuffCount, IH]
      omega

theorem incRunLenQ_reverse_eq : ∀ l : List ℚ,
    incRunLenQ l.reverse = incSuffCount l
  | [] => rfl
  | [_] => rfl
  | a :: b :: t => by
    have IH := incRunLenQ_reverse_eq (b :: t)
    rw [List.reverse_cons, incRunLenQ_snoc, ← List.reverse_cons,
      strictDecB_reverse, List.length_reverse, IH]
    by_cases h : strictIncB (a :: b :: t) = true
    · simp [incSuffCount, h]
    · simp only [Bool.not_eq_true] at h
      simp [incSuffCount, h]

theorem lastIncreaseCount_map_some (qs : List ℚ) (hq : qs ≠ []) :
    lastIncreaseCount (qs.map some) = maxIncSuffixLen qs - 1 := by
  unfold lastIncreaseCount
  rw [← List.map_reverse, incRunLen_map_some, incRunLenQ_reverse_eq]
  rw [maxIncSuffixLen_eq_incSuffCount qs hq]
  omega

theorem lookup_map_self {β : Type} (f : String → β) :
    ∀ (names : List String) (m : String), m ∈ names →
      (names.map (fun x => (x, f x))).lookup m = some (f m)
  | [], m, hm => absurd hm (List.not_mem_nil m)
  | x :: t, m, hm => by
    rw [List.map_cons, List.lookup_cons]
    by_cases hmx : m = x
    · subst hmx
      simp
    · have hmt : m ∈ t := by
        rcases List.mem_cons.mp hm with h | h
        · exact absurd h hmx
        · exact h
      have hbeq : (m == x) = false := beq_eq_false_iff_ne.mpr hmx
      rw [hbeq]
      exact lookup_map_self f t m hmt

theorem analyzeMetricRuns_lookup (rs : List MonitoringRun) (metric : String)
    (hne : rs.isEmpty = false) (hmem : metric ∈ metricNames rs) :
    (analyzeMetricRuns (some rs)).lookup metric =
      some { average := jsRound2 (match jsSum (valuesOf rs metric) with
               | some sum => some (sum /
                   (if (valuesOf rs metric).length = 0 then 1
                    else ((valuesOf rs metric).length : ℚ)))
               | none => none),
             lastIncreaseCount := lastIncreaseCount (valuesOf rs metric) } := by
  unfold analyzeMetricRuns
  dsimp only
  rw [if_neg (by rw [hne]; exact Bool.false_ne_true)]
  exact lookup_map_self _ (metricNames rs) metric hmem

/-- Claim C8 (amended): `analyzeMetricRuns` returns the empty record for a
null or empty run list; otherwise its keys are exactly the first run's
metric keys that do not end in "_explanation", and for each such metric
whose value in every run is a number, the entry holds the arithmetic mean of
the values rounded to two decimals and a `lastIncreaseCount` equal to the
length of the maximal strictly-increasing suffix of the value sequence
MINUS ONE (the count of strict increases at the end, not the suffix
length). -/
theorem analyzeMetricRuns_amended :
    analyzeMetricRuns none = [] ∧
    (∀ rs : List MonitoringRun, rs.isEmpty = true →
      analyzeMetricRuns (some rs) = []) ∧
    (∀ rs : List MonitoringRun,
      (analyzeMetricRuns (some rs)).map Prod.fst = metricNames rs) ∧
    (∀ (rs : List MonitoringRun) (metric : String) (qs : List ℚ),
      metric ∈ metricNames rs →
      valuesOf rs metric = qs.map some →
      (analyzeMetricRuns (some rs)).lookup metric =
        some { average := some (round2 (qs.sum / (qs.length : ℚ))),
               lastIncreaseCount := maxIncSuffixLen qs - 1 }) := by
  refine ⟨rfl, ?_, ?_, ?_⟩
  · intro rs h
    unfold analyzeMetricRuns
    dsimp only
    rw [if_pos h]
  · intro rs
    by_cases h : rs.isEmpty = true
    · have hrs : rs = [] := by
        cases rs with
        | nil => rfl
        | cons r rt => simp at h
      subst hrs
      rfl
    · unfold analyzeMetricRuns
      dsimp only
      rw [if_neg h, List.map_map]
      exact List.map_id (metricNames rs)
  · intro rs metric qs hmem hvals
    cases rs with
    | nil => simp [metricNames] at hmem
    | cons r rt =>
      have hqne : qs ≠ [] := by
        intro hq
        subst hq
        have hlen := congrArg List.length hvals
        simp [valuesOf] at hlen
      have hq0 : qs.length ≠ 0 := fun h => hqne (List.length_eq_zero.mp h)
      rw [analyzeMetricRuns_lookup (r :: rt) metric rfl hmem]
      rw [hvals, jsSum_map_some]
      dsimp only
      rw [List.length_map]
      rw [if_neg hq0]
      rw [lastIncreaseCount_map_some qs hqne]
      rfl

/-- Claim C8 counterexample: on the single run `{accuracy: 1}` the claim as
stated demands `lastIncreaseCount = maxIncSuffixLen [1] = 1`, but the code
loop yields 0 (it counts the strict increases at the end, one less than the
suffix length). -/
theorem analyzeMetricRuns_counterexample :
    ¬ ((analyzeMetricRuns (some runsCex)).lookup "accuracy" =
      some ⟨some (round2 ((1 : ℚ) / 1)), maxIncSuffixLen [(1 : ℚ)]⟩) := by
  intro h
  have h2 := congrArg (fun o : Option MetricAnalysis =>
    o.map (fun ma => ma.lastIncreaseCount)) h
  dsimp only at h2
  have hl : ((analyzeMetricRuns (some runsCex)).lookup "accuracy").map
      (fun ma => ma.lastIncreaseCount) = some 0 := rfl
  have hr : ((some ⟨some (round2 ((1 : ℚ) / 1)), maxIncSuffixLen [(1 : ℚ)]⟩ :
      Option MetricAnalysis).map (fun ma => ma.lastIncreaseCount)) =
      some 1 := rfl
  rw [hl, hr] at h2
  exact absurd h2 (by simp)
